import Mathlib

/-!
Verification of the substep-sampler integrator framework
(`src/py/substep_samplers.py`) against its design specification.

The embedding translates the Python source into Lean definitions:
scalar tensor values are modelled as exact rationals where the code only
performs field arithmetic, and as an IEEE-style value type (finite value,
signed infinities, NaN) where the behaviour at `sigma = 0` depends on
float special-value propagation (the DPM++ 2M SDE step computes
`log(sigma_next)` with `sigma_next = 0`).  Stateful methods become
explicit state-passing functions, fallible code returns `Except`, and
collaborator calls (the denoising model, the noise source, the ancestral
split) enter as explicit parameters, constrained only by the contracts
the specification states for them.
-/

set_option autoImplicit false

namespace OCS

/-! ## Dynamic parameter interpolation (`SingleStepSampler.get_dyn_value`) -/

/-- The divisor of the interpolation branch of `get_dyn_value`:
the source divides by `len(main_sigmas) - 1`. -/
def dynDivisor (len : ℕ) : ℚ := (len : ℚ) - 1

/-- `SingleStepSampler.get_dyn_value` (substep_samplers.py lines 137-146).
`none` models Python `None`; `mainIdx` is `main_idx` and `len` is
`len(main_sigmas)`.  Source:
`if None in (start, end): return 1.0`;
`if start == end: return start`;
`step_pct = main_idx / (len(main_sigmas) - 1)`;
`return start + (end - start) * step_pct`. -/
def get_dyn_value (start stop : Option ℚ) (mainIdx len : ℕ) : ℚ :=
  match start, stop with
  | some a, some b =>
    if a = b then a
    else a + (b - a) * ((mainIdx : ℚ) / dynDivisor len)
  | _, _ => 1

/-- `SingleStepSampler.get_dyn_eta` (lines 148-149):
`self.eta * self.get_dyn_value(ss, self.dyn_eta_start, self.dyn_eta_end)`. -/
def get_dyn_eta (eta : ℚ) (dynEtaStart dynEtaStop : Option ℚ)
    (mainIdx len : ℕ) : ℚ :=
  eta * get_dyn_value dynEtaStart dynEtaStop mainIdx len

/-! ## Step results (`SamplerResult`) -/

/-- The scalar fields of `SamplerResult` that its noising operation reads
(lines 29-69).  Tensor-valued fields are modelled by a single rational
sample value `x`. -/
structure SamplerResult where
  x : ℚ
  strength : ℚ
  s_noise : ℚ
  sigma : ℚ
  sigma_next : ℚ
deriving DecidableEq

/-- `SamplerResult.noise_scale` (lines 57-59): `self.strength * self.s_noise`. -/
def SamplerResult.noise_scale (r : SamplerResult) : ℚ := r.strength * r.s_noise

/-- `SamplerResult.get_noise` (lines 52-55) with `scaled=True` as `noise_x`
calls it: the noise source's output (the parameter `noise`) multiplied by
`noise_scale`. -/
def SamplerResult.get_noise (r : SamplerResult) (noise : ℚ) : ℚ :=
  noise * r.noise_scale

/-- `SamplerResult.noise_x` (lines 61-69).  `xArg` is the optional explicit
sample argument, `noise` the value the noise source would return if drawn.
The result is (the updated `SamplerResult`, the returned sample, whether the
noise source was actually sampled).  Source:
`if x is None: x = self.x` / `else: self.x = x`;
`if self.sigma_next == 0 or self.noise_scale == 0: return x`;
`self.x = x + self.get_noise() * scale`; `return self.x`. -/
def SamplerResult.noise_x (r : SamplerResult) (xArg : Option ℚ)
    (scale noise : ℚ) : SamplerResult × ℚ × Bool :=
  let x := xArg.getD r.x
  let r1 : SamplerResult := { r with x := x }
  if r1.sigma_next = 0 ∨ r1.noise_scale = 0 then (r1, x, false)
  else
    let x2 := x + r1.get_noise noise * scale
    ({ r1 with x := x2 }, x2, true)

/-! ## Bounded history (`HistorySingleStepSampler`) -/

/-- The `history_limit` computed by `HistorySingleStepSampler.__init__`
(lines 158-166): `min(self.max_history, max(0, default if history_limit is
None else history_limit))`. -/
def init_history_limit (max_history default_limit : ℤ) (given : Option ℤ) : ℤ :=
  min max_history (max 0 (given.getD default_limit))

/-- `HistorySingleStepSampler.available_history` (lines 168-171):
`max(0, min(ss.idx, self.history_limit, self.max_history, len(ss.hist) - 1))`.
Python's variadic `min` is the left-nested binary chain. -/
def available_history (idx history_limit max_history : ℤ) (histLen : ℕ) : ℤ :=
  max 0 (min (min (min idx history_limit) max_history) ((histLen : ℤ) - 1))

/-! ## The DEIS coefficient cache (`DEISStep.get_deis_coeffs`) -/

/-- The memo key `DEISStep.get_deis_coeffs` builds (lines 1048-1053):
`(self.history_limit, len(ss.sigmas), ss.sigmas[0].item(), ss.sigmas[-1].item())`. -/
def deis_key (history_limit : ℤ) (sigmas : List ℚ) : ℤ × ℕ × ℚ × ℚ :=
  (history_limit, sigmas.length, sigmas.headD 0, sigmas.getLastD 0)

/-- The two memo fields `DEISStep.__init__` sets to `None` (lines 1044-1045):
`self.deis_coeffs_key` and `self.deis_coeffs`. -/
structure DeisState (T : Type) where
  deis_coeffs_key : Option (ℤ × ℕ × ℚ × ℚ)
  deis_coeffs : Option T

/-- `DEISStep.get_deis_coeffs` (lines 1047-1060).  `f` abstracts the external
table builder `comfy.k_diffusion.deis.get_deis_coeff_list`, called by the
source as `f(ss.sigmas, self.history_limit + 1, deis_mode=...)`.  The result
is (the returned table, the updated memo fields, whether the table was
recomputed).  Source:
`if self.deis_coeffs_key == key: return self.deis_coeffs`;
`self.deis_coeffs_key = key`; `self.deis_coeffs = f(...)`;
`return self.deis_coeffs`. -/
def get_deis_coeffs {T : Type} (f : List ℚ → ℤ → T) (history_limit : ℤ)
    (st : DeisState T) (sigmas : List ℚ) : Option T × DeisState T × Bool :=
  let key := deis_key history_limit sigmas
  if st.deis_coeffs_key = some key then (st.deis_coeffs, st, false)
  else
    let tab := f sigmas (history_limit + 1)
    (some tab, ⟨some key, some tab⟩, true)

/-- Repeated `get_deis_coeffs` calls across a sequence of schedules, counting
how many of them recomputed the table (models the spec scenario of counting
recomputation calls across repeated steps). -/
def deis_recompute_count {T : Type} (f : List ℚ → ℤ → T) (history_limit : ℤ) :
    DeisState T → List (List ℚ) → ℕ
  | _, [] => 0
  | st, sigmas :: rest =>
    let r := get_deis_coeffs f history_limit st sigmas
    (if r.2.2 then 1 else 0) + deis_recompute_count f history_limit r.2.1 rest

/-! ## IEEE-style scalar values

The DPM++ 2M SDE step evaluates `log(sigma_next)` even when
`sigma_next = 0`, so its boundary behaviour is decided by float
special-value propagation.  `FVal` models a scalar tensor element the way
torch holds it: a finite value (idealized as an exact rational), a signed
infinity, or NaN.  Only the operations the embedded code performs are
defined, each following the IEEE-754 special-value rules (signed zero is
not distinguished; the embedded code never divides by a negative zero). -/

/-- A float scalar: finite (idealized as ℚ), +inf, -inf, or NaN. -/
inductive FVal where
  | finite (q : ℚ)
  | posInf
  | negInf
  | nan
deriving DecidableEq

/-- IEEE negation. -/
def FVal.neg : FVal → FVal
  | finite q => finite (-q)
  | posInf => negInf
  | negInf => posInf
  | nan => nan

/-- IEEE addition: NaN propagates, opposite infinities give NaN. -/
def FVal.add : FVal → FVal → FVal
  | nan, _ => nan
  | _, nan => nan
  | posInf, negInf => nan
  | negInf, posInf => nan
  | posInf, _ => posInf
  | _, posInf => posInf
  | negInf, _ => negInf
  | _, negInf => negInf
  | finite a, finite b => finite (a + b)

/-- IEEE subtraction, as `a + (-b)`. -/
def FVal.sub (a b : FVal) : FVal := a.add b.neg

/-- IEEE multiplication: NaN propagates, `0 * inf = NaN`, infinities carry
sign. -/
def FVal.mul : FVal → FVal → FVal
  | nan, _ => nan
  | _, nan => nan
  | finite a, finite b => finite (a * b)
  | finite a, posInf => if 0 < a then posInf else if a < 0 then negInf else nan
  | finite a, negInf => if 0 < a then negInf else if a < 0 then posInf else nan
  | posInf, finite b => if 0 < b then posInf else if b < 0 then negInf else nan
  | negInf, finite b => if 0 < b then negInf else if b < 0 then posInf else nan
  | posInf, posInf => posInf
  | posInf, negInf => negInf
  | negInf, posInf => negInf
  | negInf, negInf => posInf

/-- IEEE division: NaN propagates, `0/0` and `inf/inf` give NaN, a finite
value over an infinity gives 0, a nonzero finite value over 0 gives a signed
infinity. -/
def FVal.div : FVal → FVal → FVal
  | nan, _ => nan
  | _, nan => nan
  | finite a, finite b =>
    if b = 0 then (if a = 0 then nan else if 0 < a then posInf else negInf)
    else finite (a / b)
  | finite _, posInf => finite 0
  | finite _, negInf => finite 0
  | posInf, finite b => if b < 0 then negInf else posInf
  | negInf, finite b => if b < 0 then posInf else negInf
  | posInf, posInf => nan
  | posInf, negInf => nan
  | negInf, posInf => nan
  | negInf, negInf => nan

/-- The torch comparison `v == 0`: false for NaN and infinities. -/
def FVal.eqZero : FVal → Bool
  | finite q => q = 0
  | _ => false

/-- The transcendental torch operations the SDE step uses.  They are
parameters of the embedding: theorems assume only the IEEE values they take
at the points where the embedded code applies them (such as
`log 0 = -inf` and `exp NaN = NaN`). -/
structure FloatOps where
  exp : FVal → FVal
  expm1 : FVal → FVal
  log : FVal → FVal
  sqrt : FVal → FVal

/-! ## The DPM++ 2M SDE step (`DPMPP2MSDEStep.step`) -/

/-- What one `DPMPP2MSDEStep.step` call yields: the sample, the noise
strength, and the terminal flag of the `SamplerResult`. -/
structure SdeStepOut where
  x : FVal
  strength : FVal
  final : Bool
deriving DecidableEq

/-- `DPMPP2MSDEStep.step` (lines 290-317), transcribed over `FVal` with
Python's left-associated operator grouping.  `eta` is the value of
`self.get_dyn_eta(ss)`, `available_history` of `self.available_history(ss)`,
`old_denoised` of `ss.hprev.denoised`.  There is no `sigma_next == 0` guard
before the update is computed: the source evaluates
`-ss.sigma_next.log()` first and only then tests
`if ss.sigma_next == 0 or self.available_history(ss) == 0`. -/
def dpmpp_2m_sde_step (ops : FloatOps) (solver_type : String) (eta : FVal)
    (sigma sigma_prev sigma_next x denoised old_denoised : FVal)
    (available_history : ℕ) : SdeStepOut :=
  let t := (ops.log sigma).neg
  let s := (ops.log sigma_next).neg
  let h := s.sub t
  let eta_h := eta.mul h
  let x1 := (((sigma_next.div sigma).mul (ops.exp eta_h.neg)).mul x).add
    ((ops.expm1 (h.neg.sub eta_h)).neg.mul denoised)
  let noise_strength := sigma_next.mul
    (ops.sqrt (ops.expm1 ((FVal.finite (-2)).mul eta_h)).neg)
  if sigma_next.eqZero || available_history == 0 then
    ⟨x1, noise_strength, true⟩
  else
    let h_last := ((ops.log sigma).neg).sub ((ops.log sigma_prev).neg)
    let r := h_last.div h
    let x2 :=
      if solver_type = "heun" then
        x1.add (((((ops.expm1 (h.neg.sub eta_h)).neg.div (h.neg.sub eta_h)).add
          (FVal.finite 1)).mul ((FVal.finite 1).div r)).mul
            (denoised.sub old_denoised))
      else if solver_type = "midpoint" then
        x1.add ((((FVal.finite (1/2)).mul
          (ops.expm1 (h.neg.sub eta_h)).neg).mul ((FVal.finite 1).div r)).mul
            (denoised.sub old_denoised))
      else x1
    ⟨x2, noise_strength, true⟩

/-! ## Euler and the order-1 multistep cases

`euler_step`, `IPNDMStep.step` and `IPNDMVStep.step` all work with the same
per-call collaborator values, which enter as parameters here:
`d` is `self.to_d(ss.hcur)` (the derivative of the current history entry,
identical across the three because sampler configuration and context are
identical), and `(sigma_down, sigma_up)` is
`ss.get_ancestral_step(self.get_dyn_eta(ss))` (identical across the three
for the same η; spec 4.4 gives its contract). -/

/-- `SingleStepSampler.euler_step` (lines 112-116): the yielded sample
`x + d * (sigma_down - ss.sigma)` with noise strength `sigma_up`. -/
def euler_step (x d sigma sigma_down sigma_up : ℚ) : ℚ × ℚ :=
  (x + d * (sigma_down - sigma), sigma_up)

/-- Modelled from the spec: `extract_pred` is imported from this
repository's `utils` module, which is not under src/.  Per the ancestral
contract (spec 4.4: a deterministic move to `sigma_down` followed by noise
scaled by `sigma_up` reaching the state at `sigma_next`), it splits the
result `x_after` of a deterministic full step from `sigma` to `sigma_next`
into a predicted denoised part `out_d` and a predicted noise part `out_n`
on the trajectory line through `x_before`:
`x_before = out_d + out_n * sigma` and `x_after = out_d + out_n * sigma_next`. -/
def extract_pred (x_before x_after sigma sigma_next : ℚ) : ℚ × ℚ :=
  let out_n := (x_before - x_after) / (sigma - sigma_next)
  (x_before - out_n * sigma, out_n)

/-- `SingleStepSampler.ancestralize_result` (lines 126-132).  `x_cur` is
`ss.hcur.x` (the sample the step started from) and `(sigma_down, sigma_up)`
the ancestral split at the same η.  Source:
`if ss.sigma_next == 0 or eta == 0: return result(x, zeros)`;
`out_d, out_n = extract_pred(ss.hcur.x, x, ss.sigma, ss.sigma_next)`;
`return result(out_d + out_n * sd, su)`. -/
def ancestralize_result (eta sigma sigma_next sigma_down sigma_up x_cur x : ℚ) :
    ℚ × ℚ :=
  if sigma_next = 0 ∨ eta = 0 then (x, 0)
  else
    let p := extract_pred x_cur x sigma sigma_next
    (p.1 + p.2 * sigma_down, sigma_up)

/-- `IPNDMStep.IPNDM_MULTIPLIERS` (lines 930-935). -/
def IPNDM_MULTIPLIERS : List (List ℚ × ℚ) :=
  [([1], 1), ([3, -1], 2), ([23, -16, 5], 12), ([55, -59, 37, -9], 24)]

/-- The `noise` value `IPNDMStep.step` accumulates (lines 940-947).
`hd` lists the derivatives of the used history entries oldest first, as the
source's tuple `hd` does; `hd[-hidx]` is `hd.getD (hd.length - hidx) 0`.
Source: `(dm, *hms), div = self.IPNDM_MULTIPLIERS[order - 1]`;
`noise = dm * self.to_d(ss.hcur)`;
`for hidx, hm in enumerate(hms, start=1): noise += hm * hd[-hidx]`;
`noise /= div`. -/
def ipndm_noise (d : ℚ) (hd : List ℚ) (order : ℕ) : ℚ :=
  let tab := IPNDM_MULTIPLIERS.getD (order - 1) ([1], 1)
  let dm := tab.1.headD 1
  let hms := tab.1.tail
  let acc := (List.range hms.length).foldl
    (fun acc i => acc + hms.getD i 0 * hd.getD (hd.length - (i + 1)) 0) (dm * d)
  acc / tab.2

/-- `IPNDMStep.step` (lines 937-948) for `sigma_next ≠ 0`:
`order = self.available_history(ss) + 1` and the result is
`ancestralize_result(ss, x + ss.dt * noise)` with `ss.dt = sigma_next - sigma`. -/
def ipndm_step (x d sigma sigma_next eta sigma_down sigma_up : ℚ)
    (hd : List ℚ) (ah : ℕ) : ℚ × ℚ :=
  let order := ah + 1
  let dt := sigma_next - sigma
  ancestralize_result eta sigma sigma_next sigma_down sigma_up x
    (x + dt * ipndm_noise d hd order)

/-- The `noise` value `IPNDMVStep.step` computes (lines 961-1032),
transcribed per order with Python's grouping.  `hns` lists the history step
sizes `ss.sigmas[idx-k+1] - ss.sigmas[idx-k]` as the source's tensor does
(`hns[-j]` is `hns.getD (hns.length - j) 0`), and `hd` the history
derivatives as in `ipndm_noise`. -/
def ipndm_v_noise (d dt : ℚ) (hd hns : List ℚ) (order : ℕ) : ℚ :=
  let h1 := hns.getD (hns.length - 1) 0
  let h2 := hns.getD (hns.length - 2) 0
  let h3 := hns.getD (hns.length - 3) 0
  let d1 := hd.getD (hd.length - 1) 0
  let d2 := hd.getD (hd.length - 2) 0
  let d3 := hd.getD (hd.length - 3) 0
  if order = 1 then d
  else if order = 2 then
    let coeff1 := (2 + (dt / h1)) / 2
    let coeff2 := -(dt / h1) / 2
    coeff1 * d + coeff2 * d1
  else if order = 3 then
    let temp := (1 - dt / (3 * (dt + h1)) * (dt * (dt + h1)) / (h1 * (h1 + h2))) / 2
    let coeff1 := (2 + (dt / h1)) / 2 + temp
    let coeff2 := -(dt / h1) / 2 - (1 + h1 / h2) * temp
    let coeff3 := temp * h1 / h2
    coeff1 * d + coeff2 * d1 + coeff3 * d2
  else
    let temp1 := (1 - dt / (3 * (dt + h1)) * (dt * (dt + h1)) / (h1 * (h1 + h2))) / 2
    let temp2 :=
      ((1 - dt / (3 * (dt + h1))) / 2
          + (1 - dt / (2 * (dt + h1))) * dt / (6 * (dt + h1 + h2)))
        * (dt * (dt + h1) * (dt + h1 + h2))
        / (h1 * (h1 + h2) * (h1 + h2 + h3))
    let coeff1 := (2 + (dt / h1)) / 2 + temp1 + temp2
    let coeff2 := -(dt / h1) / 2 - (1 + h1 / h2) * temp1
      - (1 + (h1 / h2) + (h1 * (h1 + h2) / (h2 * (h2 + h3)))) * temp2
    let coeff3 := temp1 * h1 / h2
      + ((h1 / h2) + (h1 * (h1 + h2) / (h2 * (h2 + h3))) * (1 + h2 / h3)) * temp2
    let coeff4 := -temp2 * (h1 * (h1 + h2) / (h2 * (h2 + h3))) * h1 / h2
    coeff1 * d + coeff2 * d1 + coeff3 * d2 + coeff4 * d3

/-- `IPNDMVStep.step` (lines 958-1033) for `sigma_next ≠ 0`:
`order = self.available_history(ss) + 1` and the result is
`ancestralize_result(ss, x + ss.dt * noise)`. -/
def ipndm_v_step (x d sigma sigma_next eta sigma_down sigma_up : ℚ)
    (hd hns : List ℚ) (ah : ℕ) : ℚ × ℚ :=
  let order := ah + 1
  let dt := sigma_next - sigma
  ancestralize_result eta sigma sigma_next sigma_down sigma_up x
    (x + dt * ipndm_v_noise d dt hd hns order)

/-! ## Adaptive adapter callbacks (`TDEStep.step.odefn`, `TODEStep.step.odefn`) -/

/-- `TDEStep.step.odefn` (lines 1162-1188), with the advisory progress-bar
statements omitted.  `mcc` is the captured model-call counter, `x` the
current batch element `x[bidx]`, `y` the solver's query point, `hcur_d` the
derivative from the already-computed current model result `ss.hcur`, and
`model_d` the derivative a fresh `ss.model` call would give at `(y, t)`.
The result carries (the returned derivative, the updated counter, whether
`ss.model` was invoked).  Source:
`if t < 1e-05: return torch.zeros_like(y)`;
`if mcc >= self.ode_max_nfe: raise RuntimeError(...)`;
`if t == ss.sigma and torch.equal(x[bidx], y): mr = ss.hcur; mcc = 1`;
`else: mr = ss.model(...); mcc += 1`; `return self.to_d(...)`. -/
def tde_odefn (ode_max_nfe mcc : ℕ) (t sigma x y hcur_d model_d : ℚ) :
    Except String (ℚ × ℕ × Bool) :=
  if t < 1 / 100000 then Except.ok (0, mcc, false)
  else if ode_max_nfe ≤ mcc then
    Except.error "TDEStep: Model call limit exceeded"
  else if t = sigma ∧ y = x then Except.ok (hcur_d, 1, false)
  else Except.ok (model_d, mcc + 1, true)

/-- `TODEStep.step.odefn` (lines 1289-1316), with the advisory progress-bar
statements and the tensor reshaping omitted.  `t` is the per-batch time
vector; the error message is the source's (it says `TDEStep`, line 1294).
Source: `if torch.all(t <= 1e-05).item(): return torch.zeros_like(y_flat)`;
`if mcc >= self.ode_max_nfe: raise RuntimeError(...)`;
`if mcc == 0 and torch.all(t == s): mr = ss.hcur; mcc = 1`;
`else: mr = ss.model(...); mcc += 1`. -/
def tode_odefn (ode_max_nfe mcc : ℕ) (t : List ℚ) (sigma hcur_d model_d : ℚ) :
    Except String (ℚ × ℕ × Bool) :=
  if t.all (fun ti => ti ≤ 1 / 100000) then Except.ok (0, mcc, false)
  else if ode_max_nfe ≤ mcc then
    Except.error "TDEStep: Model call limit exceeded"
  else if mcc = 0 ∧ t.all (fun ti => ti = sigma) then Except.ok (hcur_d, 1, false)
  else Except.ok (model_d, mcc + 1, true)

/-- The external adaptive solver's evaluation loop, as it drives `odefn`:
each query point `(t, y)` is fed to `tde_odefn` in sequence, threading the
captured counter; the first raised error aborts the whole solve (the
exception propagates out of `tde.odeint`, before `TDEStep.step` yields any
`SamplerResult`). -/
def tde_solve (ode_max_nfe : ℕ) (sigma x hcur_d model_d : ℚ)
    (pts : List (ℚ × ℚ)) (mcc : ℕ) : Except String ℕ :=
  pts.foldlM
    (fun acc pt =>
      (tde_odefn ode_max_nfe acc pt.1 sigma x pt.2 hcur_d model_d).map
        (fun r => r.2.1))
    mcc

/-! ## Construction-time configuration validation -/

/-- The `dyn_deta_mode` check in `EulerDancingStep.__init__` (lines 622-624):
`if dyn_deta_mode not in ("lerp", "lerp_alt", "deta"): raise
ValueError("Bad dyn_deta_mode")`. -/
def euler_dancing_init (dyn_deta_mode : String) : Except String String :=
  if dyn_deta_mode = "lerp" ∨ dyn_deta_mode = "lerp_alt" ∨ dyn_deta_mode = "deta"
  then Except.ok dyn_deta_mode
  else Except.error "Bad dyn_deta_mode"

/-- `DPMPP2MSDEStep.__init__` (lines 286-288) stores `solver_type` without
any validation: `self.solver_type = solver_type`. -/
def dpmpp_2m_sde_init (solver_type : String) : Except String String :=
  Except.ok solver_type

/-! ## Lemmas about linear interpolation -/

/-- A linear blend with a fraction in `[0, 1]` stays between its endpoints. -/
lemma lerp_between (a b p : ℚ) (h0 : 0 ≤ p) (h1 : p ≤ 1) :
    min a b ≤ a + (b - a) * p ∧ a + (b - a) * p ≤ max a b := by
  rcases le_total a b with hab | hab
  · refine ⟨le_trans (min_le_left a b) ?_, le_trans ?_ (le_max_right a b)⟩
    · nlinarith
    · nlinarith
  · refine ⟨le_trans (min_le_right a b) ?_, le_trans ?_ (le_max_left a b)⟩
    · nlinarith
    · nlinarith

/-- A linear blend is monotone in its fraction when the endpoints ascend. -/
lemma lerp_mono (a b p q : ℚ) (hpq : p ≤ q) (hab : a ≤ b) :
    a + (b - a) * p ≤ a + (b - a) * q := by nlinarith

/-! ## C2: the dynamic-interpolation value -/

/-- C2: `get_dyn_value` returns 1.0 when either bound is unset, the start
value when the bounds are equal, and otherwise
`start + (end - start) * (main_idx / (len(main_sigmas) - 1))`, a value that
lies between the bounds and moves monotonically from start toward end as
the index grows. -/
theorem get_dyn_value_spec (a b : ℚ) (mainIdx len : ℕ)
    (hlen : 2 ≤ len) (hidx : mainIdx ≤ len - 1) :
    (∀ stop i l, get_dyn_value none stop i l = 1) ∧
    (∀ start i l, get_dyn_value start none i l = 1) ∧
    (∀ i l, get_dyn_value (some a) (some a) i l = a) ∧
    (a ≠ b →
      get_dyn_value (some a) (some b) mainIdx len
        = a + (b - a) * ((mainIdx : ℚ) / ((len : ℚ) - 1))) ∧
    (min a b ≤ get_dyn_value (some a) (some b) mainIdx len ∧
      get_dyn_value (some a) (some b) mainIdx len ≤ max a b) ∧
    (∀ j, mainIdx ≤ j → a ≤ b →
      get_dyn_value (some a) (some b) mainIdx len
        ≤ get_dyn_value (some a) (some b) j len) ∧
    (∀ j, mainIdx ≤ j → b ≤ a →
      get_dyn_value (some a) (some b) j len
        ≤ get_dyn_value (some a) (some b) mainIdx len) := by
  have hD : (0 : ℚ) < (len : ℚ) - 1 := by
    have : (2 : ℚ) ≤ (len : ℚ) := by exact_mod_cast hlen
    linarith
  have hfrac : ∀ i : ℕ, (0 : ℚ) ≤ (i : ℚ) / ((len : ℚ) - 1) := fun i =>
    div_nonneg (by positivity) (le_of_lt hD)
  have hfrac1 : ((mainIdx : ℚ)) / ((len : ℚ) - 1) ≤ 1 := by
    rw [div_le_one hD]
    have h1 : (mainIdx : ℚ) ≤ ((len - 1 : ℕ) : ℚ) := by exact_mod_cast hidx
    have h2 : ((len - 1 : ℕ) : ℚ) = (len : ℚ) - 1 := by
      have : 1 ≤ len := le_trans (by norm_num) hlen
      push_cast [Nat.cast_sub this]
      ring
    linarith [h1, h2.le, h2.ge]
  have hmono : ∀ i j : ℕ, i ≤ j →
      ((i : ℚ)) / ((len : ℚ) - 1) ≤ ((j : ℚ)) / ((len : ℚ) - 1) := by
    intro i j hij
    have hij' : (i : ℚ) ≤ (j : ℚ) := by exact_mod_cast hij
    exact (div_le_div_iff_of_pos_right hD).mpr hij'
  refine ⟨?_, ?_, ?_, ?_, ?_, ?_, ?_⟩
  · intro stop i l; cases stop <;> rfl
  · intro start i l; cases start <;> rfl
  · intro i l; simp [get_dyn_value]
  · intro hne; simp [get_dyn_value, dynDivisor, hne]
  · by_cases hab : a = b
    · subst hab
      simp [get_dyn_value]
    · have := lerp_between a b ((mainIdx : ℚ) / ((len : ℚ) - 1))
        (hfrac mainIdx) hfrac1
      simpa [get_dyn_value, dynDivisor, hab] using this
  · intro j hj hab
    by_cases hab2 : a = b
    · subst hab2; simp [get_dyn_value]
    · have hm : ((mainIdx : ℚ)) / ((len : ℚ) - 1) ≤ ((j : ℚ)) / ((len : ℚ) - 1) :=
        hmono mainIdx j hj
      simpa [get_dyn_value, dynDivisor, hab2] using
        lerp_mono a b _ _ hm hab
  · intro j hj hba
    by_cases hab2 : a = b
    · subst hab2; simp [get_dyn_value]
    · have hm : ((mainIdx : ℚ)) / ((len : ℚ) - 1) ≤ ((j : ℚ)) / ((len : ℚ) - 1) :=
        hmono mainIdx j hj
      simp only [get_dyn_value, dynDivisor, if_neg hab2]
      nlinarith [mul_nonneg (sub_nonneg.mpr hba) (sub_nonneg.mpr hm)]

/-- C2 witness: the spec theorem applied at a concrete schedule. -/
theorem get_dyn_value_spec_witness :
    (∀ stop i l, get_dyn_value none stop i l = 1) ∧
    (∀ start i l, get_dyn_value start none i l = 1) ∧
    (∀ i l, get_dyn_value (some (0 : ℚ)) (some 0) i l = 0) ∧
    ((0 : ℚ) ≠ 1 →
      get_dyn_value (some 0) (some 1) 1 3
        = 0 + (1 - 0) * ((1 : ℚ) / ((3 : ℚ) - 1))) ∧
    (min (0 : ℚ) 1 ≤ get_dyn_value (some 0) (some 1) 1 3 ∧
      get_dyn_value (some 0) (some 1) 1 3 ≤ max (0 : ℚ) 1) ∧
    (∀ j, 1 ≤ j → (0 : ℚ) ≤ 1 →
      get_dyn_value (some 0) (some 1) 1 3
        ≤ get_dyn_value (some 0) (some 1) j 3) ∧
    (∀ j, 1 ≤ j → (1 : ℚ) ≤ 0 →
      get_dyn_value (some 0) (some 1) j 3
        ≤ get_dyn_value (some 0) (some 1) 1 3) :=
  get_dyn_value_spec 0 1 1 3 (by norm_num) (by norm_num)

/-! ## C3: the interpolation divisor -/

/-- C3 counterexample: on a sigma sequence of literal length 1 with both
bounds set and unequal, the interpolation branch is reached and its divisor
`len(main_sigmas) - 1` is zero, so the division `main_idx / (len - 1)` the
source performs is a division by zero (in Python a `ZeroDivisionError`;
the claim that no division by zero can occur on a length-1 sequence is
false). -/
theorem get_dyn_value_len_one_div_zero :
    dynDivisor 1 = 0 ∧
    get_dyn_value (some 0) (some 1) 0 1
      = 0 + (1 - 0) * ((0 : ℚ) / dynDivisor 1) := by
  constructor
  · norm_num [dynDivisor]
  · norm_num [get_dyn_value]

/-- C3 amended: a single-step schedule has two sigma entries (the start
level and the end level), and for every schedule of at least two entries
the divisor `len - 1` is nonzero, so the division in `get_dyn_value` is
well defined. -/
theorem get_dyn_value_div_well_defined (len : ℕ) (hlen : 2 ≤ len) :
    dynDivisor len ≠ 0 ∧ 0 < dynDivisor len ∧
    (∀ (a b : ℚ) (i : ℕ), a ≠ b →
      get_dyn_value (some a) (some b) i len
        = a + (b - a) * ((i : ℚ) / dynDivisor len)) := by
  have hD : (0 : ℚ) < dynDivisor len := by
    have : (2 : ℚ) ≤ (len : ℚ) := by exact_mod_cast hlen
    simp only [dynDivisor]
    linarith
  exact ⟨ne_of_gt hD, hD, fun a b i hne => by simp [get_dyn_value, hne]⟩

/-- C3 witness: the amended theorem at the smallest legal schedule. -/
theorem get_dyn_value_div_well_defined_witness :
    dynDivisor 2 ≠ 0 ∧ 0 < dynDivisor 2 ∧
    (∀ (a b : ℚ) (i : ℕ), a ≠ b →
      get_dyn_value (some a) (some b) i 2
        = a + (b - a) * ((i : ℚ) / dynDivisor 2)) :=
  get_dyn_value_div_well_defined 2 (by norm_num)

/-! ## C4: re-noising is a no-op on the terminal boundary -/

/-- C4: the effective noise scale is `strength * s_noise`, and `noise_x`
returns the input sample unchanged, drawing nothing from the noise source,
whenever `sigma_next` is exactly zero or the effective scale is zero. -/
theorem noise_x_terminal_noop (r : SamplerResult) (xArg : Option ℚ)
    (scale noise : ℚ) (h : r.sigma_next = 0 ∨ r.noise_scale = 0) :
    r.noise_scale = r.strength * r.s_noise ∧
    (r.noise_x xArg scale noise).2.1 = xArg.getD r.x ∧
    (r.noise_x xArg scale noise).2.2 = false := by
  refine ⟨rfl, ?_, ?_⟩ <;>
    simp [SamplerResult.noise_x, SamplerResult.noise_scale] at h ⊢ <;>
    rcases h with h | h <;> simp [h]

/-- C4 witness: a concrete terminal result (`sigma_next = 0`). -/
theorem noise_x_terminal_noop_witness :
    (⟨5, 2, 3, 7, 0⟩ : SamplerResult).noise_scale = 2 * 3 ∧
    ((⟨5, 2, 3, 7, 0⟩ : SamplerResult).noise_x (some 9) 2 11).2.1
      = (some (9 : ℚ)).getD 5 ∧
    ((⟨5, 2, 3, 7, 0⟩ : SamplerResult).noise_x (some 9) 2 11).2.2 = false :=
  noise_x_terminal_noop ⟨5, 2, 3, 7, 0⟩ (some 9) 2 11 (Or.inl rfl)

/-! ## C10: the stored sample tracks the returned sample -/

/-- C10: after any `noise_x` call the stored field `x` equals the returned
value; an explicit sample argument replaces the stored sample before any
noising, and when noise is injected the stored sample becomes the noised
sample. -/
theorem noise_x_stores_returned (r : SamplerResult) (xArg : Option ℚ)
    (scale noise : ℚ) :
    (r.noise_x xArg scale noise).1.x = (r.noise_x xArg scale noise).2.1 ∧
    (r.noise_x xArg scale noise).2.1
      = (if r.sigma_next = 0 ∨ r.noise_scale = 0 then xArg.getD r.x
         else xArg.getD r.x + r.get_noise noise * scale) := by
  constructor <;>
    · simp only [SamplerResult.noise_x, SamplerResult.noise_scale,
        SamplerResult.get_noise]
      split <;> simp_all [SamplerResult.noise_scale, SamplerResult.get_noise]

/-! ## C5: available history -/

/-- C5: during a step (index nonnegative, a nonempty history that includes
the current entry, nonnegative caps as `__init__` guarantees), the available
history equals the minimum of the current index, the configured cap, the
hard maximum and the stored-entry count minus one, and is never negative;
the configured cap itself is never negative. -/
theorem available_history_spec (idx history_limit max_history : ℤ)
    (histLen : ℕ) (hidx : 0 ≤ idx) (hlim : 0 ≤ history_limit)
    (hmax : 0 ≤ max_history) (hhist : 1 ≤ histLen) :
    available_history idx history_limit max_history histLen
      = min (min (min idx history_limit) max_history) ((histLen : ℤ) - 1) ∧
    0 ≤ available_history idx history_limit max_history histLen ∧
    (∀ (d : ℤ) (g : Option ℤ), 0 ≤ init_history_limit max_history d g) := by
  refine ⟨?_, ?_, ?_⟩
  · simp only [available_history]
    omega
  · simp only [available_history]
    omega
  · intro d g
    cases g <;> simp only [init_history_limit, Option.getD] <;> omega

/-- C5 witness: the available-history formula at concrete step data. -/
theorem available_history_spec_witness :
    available_history 3 1 3 4 = min (min (min 3 1) 3) ((4 : ℤ) - 1) ∧
    0 ≤ available_history 3 1 3 4 ∧
    (∀ (d : ℤ) (g : Option ℤ), 0 ≤ init_history_limit 3 d g) :=
  available_history_spec 3 1 3 4 (by norm_num) (by norm_num) (by norm_num)
    (by norm_num)

/-! ## C6: the order-1 multistep cases coincide with Euler -/

/-- Ancestralizing the deterministic full Euler step
`x + (sigma_next - sigma) * d` gives back exactly the ancestral Euler step,
under the ancestral-split contract of spec 4.4: at `eta = 0` the split
collapses to `(sigma_next, 0)`, and the split reaches the statistically
correct state at `sigma_next` (`sigma_down^2 + sigma_up^2 = sigma_next^2`,
which the concrete `get_ancestral_step` satisfies by construction). -/
lemma ancestralize_full_step (x d sigma sigma_next eta sigma_down sigma_up : ℚ)
    (hne : sigma_next ≠ sigma)
    (heta0 : eta = 0 → sigma_down = sigma_next ∧ sigma_up = 0)
    (hsum : sigma_down ^ 2 + sigma_up ^ 2 = sigma_next ^ 2) :
    ancestralize_result eta sigma sigma_next sigma_down sigma_up x
      (x + (sigma_next - sigma) * d)
      = euler_step x d sigma sigma_down sigma_up := by
  unfold ancestralize_result euler_step extract_pred
  split
  case isTrue h =>
    rcases h with h0 | h0
    · subst h0
      have hsd : sigma_down = 0 := by
        nlinarith [sq_nonneg sigma_down, sq_nonneg sigma_up]
      have hsu : sigma_up = 0 := by
        nlinarith [sq_nonneg sigma_down, sq_nonneg sigma_up]
      simp only [hsd, hsu, Prod.mk.injEq]
      exact ⟨by ring, trivial⟩
    · obtain ⟨h1, h2⟩ := heta0 h0
      simp only [h1, h2, Prod.mk.injEq]
      exact ⟨by ring, trivial⟩
  case isFalse h =>
    have hσ : sigma - sigma_next ≠ 0 := sub_ne_zero.mpr (Ne.symm hne)
    have key : (x - (x + (sigma_next - sigma) * d)) / (sigma - sigma_next)
        = d := by
      field_simp
      ring
    simp only [key, Prod.mk.injEq]
    exact ⟨by ring, trivial⟩

/-- C6: with no available history (order 1), the fixed-coefficient multistep
step (`ipndm`), the variable-step multistep step (`ipndm_v`) and the Euler
step produce identical output samples and identical noise strengths, for the
same sample, context, η and schedule.  The ancestral-split values are shared
(same context and η) and constrained only by the spec-4.4 contract. -/
theorem ipndm_order1_matches_euler
    (x d sigma sigma_next eta sigma_down sigma_up : ℚ) (hd hns : List ℚ)
    (hne : sigma_next ≠ sigma)
    (heta0 : eta = 0 → sigma_down = sigma_next ∧ sigma_up = 0)
    (hsum : sigma_down ^ 2 + sigma_up ^ 2 = sigma_next ^ 2) :
    ipndm_step x d sigma sigma_next eta sigma_down sigma_up hd 0
      = euler_step x d sigma sigma_down sigma_up ∧
    ipndm_v_step x d sigma sigma_next eta sigma_down sigma_up hd hns 0
      = euler_step x d sigma sigma_down sigma_up ∧
    ipndm_step x d sigma sigma_next eta sigma_down sigma_up hd 0
      = ipndm_v_step x d sigma sigma_next eta sigma_down sigma_up hd hns 0 := by
  have hnoise : ipndm_noise d hd 1 = d := by
    norm_num [ipndm_noise, IPNDM_MULTIPLIERS]
  have hnoisev : ipndm_v_noise d (sigma_next - sigma) hd hns 1 = d := by
    norm_num [ipndm_v_noise]
  have main := ancestralize_full_step x d sigma sigma_next eta sigma_down
    sigma_up hne heta0 hsum
  refine ⟨?_, ?_, ?_⟩
  · simpa [ipndm_step, hnoise] using main
  · simpa [ipndm_v_step, hnoisev] using main
  · simp [ipndm_step, ipndm_v_step, hnoise, hnoisev]

/-- C6 witness: the equivalence at a concrete step
(σ = 2 → σ_next = 1, η = 1, split (3/5, 4/5) on the 3-4-5 circle). -/
theorem ipndm_order1_matches_euler_witness :
    ipndm_step 1 2 2 1 1 (3 / 5) (4 / 5) [] 0
      = euler_step 1 2 2 (3 / 5) (4 / 5) ∧
    ipndm_v_step 1 2 2 1 1 (3 / 5) (4 / 5) [] [] 0
      = euler_step 1 2 2 (3 / 5) (4 / 5) ∧
    ipndm_step 1 2 2 1 1 (3 / 5) (4 / 5) [] 0
      = ipndm_v_step 1 2 2 1 1 (3 / 5) (4 / 5) [] [] 0 :=
  ipndm_order1_matches_euler 1 2 2 1 1 (3 / 5) (4 / 5) [] []
    (by norm_num) (by norm_num) (by norm_num)

/-! ## C1: the `sigma_next = 0` boundary of the DPM++ 2M SDE step -/

/-- C1 (the code at the failing input): `DPMPP2MSDEStep.step` has no
`sigma_next == 0` guard before its update, so at `sigma = 1`,
`sigma_next = 0` and η = 0 it computes `h = -log 0 = +inf` and
`eta_h = 0 * inf = NaN`, and the terminal result carries a NaN sample and a
NaN strength instead of the denoised estimate (3) or a plain Euler update
from the sample (2).  The hypotheses pin the transcendental collaborators
only at the IEEE points the code touches. -/
theorem dpmpp_2m_sde_zero_terminal_nan (ops : FloatOps)
    (hlog1 : ops.log (FVal.finite 1) = FVal.finite 0)
    (hlog0 : ops.log (FVal.finite 0) = FVal.negInf)
    (hexpnan : ops.exp FVal.nan = FVal.nan)
    (hexpm1nan : ops.expm1 FVal.nan = FVal.nan)
    (hsqrtnan : ops.sqrt FVal.nan = FVal.nan) :
    dpmpp_2m_sde_step ops "midpoint" (FVal.finite 0) (FVal.finite 1)
        (FVal.finite 2) (FVal.finite 0) (FVal.finite 2) (FVal.finite 3)
        (FVal.finite 3) 1
      = ⟨FVal.nan, FVal.nan, true⟩ ∧
    FVal.nan ≠ FVal.finite 3 ∧ FVal.nan ≠ FVal.finite 2 := by
  refine ⟨?_, by simp, by simp⟩
  simp only [dpmpp_2m_sde_step, FVal.sub]
  rw [hlog1, hlog0]
  norm_num [FVal.neg, FVal.add, FVal.mul, FVal.div, FVal.eqZero,
    hexpnan, hexpm1nan, hsqrtnan]

/-- Witness-only instantiation of `exp`: IEEE values at the special points,
arbitrary (NaN) on finite arguments the theorems never touch. -/
def testExpFn : FVal → FVal
  | FVal.nan => FVal.nan
  | FVal.negInf => FVal.finite 0
  | FVal.posInf => FVal.posInf
  | FVal.finite _ => FVal.nan

/-- Witness-only instantiation of `expm1`: IEEE values at the special
points, arbitrary (NaN) on finite arguments the theorems never touch. -/
def testExpm1Fn : FVal → FVal
  | FVal.nan => FVal.nan
  | FVal.negInf => FVal.finite (-1)
  | FVal.posInf => FVal.posInf
  | FVal.finite _ => FVal.nan

/-- Witness-only instantiation of `log`: the IEEE values `log 0 = -inf` and
`log 1 = 0`, arbitrary (NaN) elsewhere on points the theorems never touch. -/
def testLogFn : FVal → FVal
  | FVal.finite q =>
    if q = 0 then FVal.negInf else if q = 1 then FVal.finite 0 else FVal.nan
  | FVal.posInf => FVal.posInf
  | FVal.negInf => FVal.nan
  | FVal.nan => FVal.nan

/-- Witness-only instantiation of `sqrt`: IEEE values at the special points,
arbitrary (NaN) on finite arguments the theorems never touch. -/
def testSqrtFn : FVal → FVal
  | FVal.nan => FVal.nan
  | FVal.posInf => FVal.posInf
  | FVal.negInf => FVal.nan
  | FVal.finite q => if q = 1 then FVal.finite 1 else FVal.nan

/-- A concrete `FloatOps` for the witnesses. -/
def testFloatOps : FloatOps := ⟨testExpFn, testExpm1Fn, testLogFn, testSqrtFn⟩

/-- C1 witness: the NaN evaluation under the concrete operations. -/
theorem dpmpp_2m_sde_zero_terminal_nan_witness :
    dpmpp_2m_sde_step testFloatOps "midpoint" (FVal.finite 0) (FVal.finite 1)
        (FVal.finite 2) (FVal.finite 0) (FVal.finite 2) (FVal.finite 3)
        (FVal.finite 3) 1
      = ⟨FVal.nan, FVal.nan, true⟩ ∧
    FVal.nan ≠ FVal.finite 3 ∧ FVal.nan ≠ FVal.finite 2 :=
  dpmpp_2m_sde_zero_terminal_nan testFloatOps rfl rfl rfl rfl rfl

/-! ## C7: the adaptive adapters' evaluation budget -/

/-- C7 counterexample: with the counter already at the cap (100), a callback
invocation whose time argument is below the `1e-05` threshold returns a zero
derivative without raising the budget error (and without a model call), so
the claim that the next invocation after reaching the cap raises the fatal
error is false as stated. -/
theorem tde_odefn_over_budget_ok_below_threshold :
    tde_odefn 100 100 0 7 5 5 9 9 = Except.ok (0, 100, false) := by
  norm_num [tde_odefn]

/-- Once a solve has failed, feeding the solver more evaluation points
cannot resurrect it: the error is final (the exception propagates, the step
is not retried). -/
lemma tde_solve_error_append (cap : ℕ) (sigma x hcur_d model_d : ℚ)
    (pts rest : List (ℚ × ℚ)) (m : ℕ) (e : String)
    (h : tde_solve cap sigma x hcur_d model_d pts m = Except.error e) :
    tde_solve cap sigma x hcur_d model_d (pts ++ rest) m = Except.error e := by
  unfold tde_solve at h ⊢
  rw [List.foldlM_append, h]
  rfl

/-- C7 amended: for both adapters, a callback invocation with the counter at
or past the cap raises the fatal budget error before any model call —
unless its time argument is at the near-zero threshold (`t < 1e-05` for
tde, all components `≤ 1e-05` for tode), where it returns a zero derivative,
still without a model call; no over-budget invocation ever makes a model
call, and an error aborts the remaining solve, before any result. -/
theorem tde_budget_error_spec (cap mcc : ℕ) (t sigma x y hcur_d model_d : ℚ)
    (tb : List ℚ)
    (ht : 1 / 100000 ≤ t) (hcap : cap ≤ mcc)
    (htb : ¬ tb.all (fun ti => ti ≤ 1 / 100000)) :
    tde_odefn cap mcc t sigma x y hcur_d model_d
      = Except.error "TDEStep: Model call limit exceeded" ∧
    tode_odefn cap mcc tb sigma hcur_d model_d
      = Except.error "TDEStep: Model call limit exceeded" ∧
    (∀ t2 y2 : ℚ,
      tde_odefn cap mcc t2 sigma x y2 hcur_d model_d
          = Except.error "TDEStep: Model call limit exceeded"
        ∨ tde_odefn cap mcc t2 sigma x y2 hcur_d model_d
          = Except.ok (0, mcc, false)) ∧
    (∀ (pts rest : List (ℚ × ℚ)) (m : ℕ) (e : String),
      tde_solve cap sigma x hcur_d model_d pts m = Except.error e →
      tde_solve cap sigma x hcur_d model_d (pts ++ rest) m
        = Except.error e) := by
  refine ⟨?_, ?_, ?_, ?_⟩
  · simp only [tde_odefn]
    rw [if_neg (not_lt.mpr ht), if_pos hcap]
  · simp only [tode_odefn]
    rw [if_neg htb, if_pos hcap]
  · intro t2 y2
    by_cases h2 : t2 < 1 / 100000
    · refine Or.inr ?_
      simp only [tde_odefn]
      rw [if_pos h2]
    · refine Or.inl ?_
      simp only [tde_odefn]
      rw [if_neg h2, if_pos hcap]
  · exact fun pts rest m e h =>
      tde_solve_error_append cap sigma x hcur_d model_d pts rest m e h

/-- C7 witness: a concrete over-budget invocation (cap 2, counter 2). -/
theorem tde_budget_error_spec_witness :
    tde_odefn 2 2 1 7 5 6 9 10
      = Except.error "TDEStep: Model call limit exceeded" ∧
    tode_odefn 2 2 [1] 7 9 10
      = Except.error "TDEStep: Model call limit exceeded" ∧
    (∀ t2 y2 : ℚ,
      tde_odefn 2 2 t2 7 5 y2 9 10
          = Except.error "TDEStep: Model call limit exceeded"
        ∨ tde_odefn 2 2 t2 7 5 y2 9 10 = Except.ok (0, 2, false)) ∧
    (∀ (pts rest : List (ℚ × ℚ)) (m : ℕ) (e : String),
      tde_solve 2 7 5 9 10 pts m = Except.error e →
      tde_solve 2 7 5 9 10 (pts ++ rest) m = Except.error e) :=
  tde_budget_error_spec 2 2 1 7 5 6 9 10 [1] (by norm_num) (by norm_num)
    (by norm_num)

/-! ## C8: construction-time configuration validation -/

/-- C8 counterexample: `DPMPP2MSDEStep` accepts an invalid `solver_type`
("bogus" is not one of the recognized "heun"/"midpoint") at construction
without any error, so the claim that every integrator raises on an invalid
enumerated option at construction time is false as stated. -/
theorem dpmpp_2m_sde_init_accepts_invalid :
    dpmpp_2m_sde_init "bogus" = Except.ok "bogus" := rfl

/-- C8 amended: `EulerDancingStep` validates its enumerated
`dyn_deta_mode` at construction (invalid values error, the three recognized
modes are accepted); `DPMPP2MSDEStep` accepts any `solver_type` at
construction, and during a step an unrecognized `solver_type` is silently
ignored (the correction branch is skipped, giving the same result as having
no history); no configuration error is raised mid-run (the step embeddings
are total functions). -/
theorem config_validation_spec (mode solver : String)
    (hm1 : mode ≠ "lerp") (hm2 : mode ≠ "lerp_alt") (hm3 : mode ≠ "deta")
    (hs1 : solver ≠ "heun") (hs2 : solver ≠ "midpoint") :
    euler_dancing_init mode = Except.error "Bad dyn_deta_mode" ∧
    euler_dancing_init "lerp" = Except.ok "lerp" ∧
    euler_dancing_init "lerp_alt" = Except.ok "lerp_alt" ∧
    euler_dancing_init "deta" = Except.ok "deta" ∧
    (∀ s, dpmpp_2m_sde_init s = Except.ok s) ∧
    (∀ (ops : FloatOps) (eta sigma sigma_prev sigma_next x denoised
        old_denoised : FVal) (ah : ℕ),
      dpmpp_2m_sde_step ops solver eta sigma sigma_prev sigma_next x denoised
          old_denoised ah
        = dpmpp_2m_sde_step ops solver eta sigma sigma_prev sigma_next x
          denoised old_denoised 0) := by
  refine ⟨?_, rfl, rfl, rfl, fun s => rfl, ?_⟩
  · simp only [euler_dancing_init]
    rw [if_neg]
    push_neg
    exact ⟨hm1, hm2, hm3⟩
  · intro ops eta sigma sigma_prev sigma_next x denoised old_denoised ah
    simp only [dpmpp_2m_sde_step, if_neg hs1, if_neg hs2]
    simp

/-- C8 witness: the amended behaviour at the concrete invalid options
"nope" (interpolation mode) and "bogus" (solver type). -/
theorem config_validation_spec_witness :
    euler_dancing_init "nope" = Except.error "Bad dyn_deta_mode" ∧
    euler_dancing_init "lerp" = Except.ok "lerp" ∧
    euler_dancing_init "lerp_alt" = Except.ok "lerp_alt" ∧
    euler_dancing_init "deta" = Except.ok "deta" ∧
    (∀ s, dpmpp_2m_sde_init s = Except.ok s) ∧
    (∀ (ops : FloatOps) (eta sigma sigma_prev sigma_next x denoised
        old_denoised : FVal) (ah : ℕ),
      dpmpp_2m_sde_step ops "bogus" eta sigma sigma_prev sigma_next x denoised
          old_denoised ah
        = dpmpp_2m_sde_step ops "bogus" eta sigma sigma_prev sigma_next x
          denoised old_denoised 0) :=
  config_validation_spec "nope" "bogus" (by decide) (by decide) (by decide)
    (by decide) (by decide)

/-! ## C9: the DEIS coefficient cache -/

/-- A state whose memo key already matches never recomputes, over any run of
repeated calls with the same schedule. -/
lemma deis_recompute_count_cached {T : Type} (f : List ℚ → ℤ → T)
    (hl : ℤ) (sigmas : List ℚ) (n : ℕ) (st : DeisState T)
    (h : st.deis_coeffs_key = some (deis_key hl sigmas)) :
    deis_recompute_count f hl st (List.replicate n sigmas) = 0 := by
  induction n with
  | zero => rfl
  | succ k ih =>
    simp only [List.replicate_succ, deis_recompute_count, get_deis_coeffs,
      if_pos h]
    simpa using ih

/-- C9: `get_deis_coeffs` returns the cached table, untouched state and no
recomputation exactly when the memo key `(history cap, schedule length,
first sigma, last sigma)` matches, and otherwise recomputes, replacing both
the key and the table; across any run of `n + 1` calls on an unchanged
schedule, exactly one recomputation happens. -/
theorem get_deis_coeffs_spec {T : Type} (f : List ℚ → ℤ → T) (hl : ℤ)
    (st : DeisState T) (sigmas : List ℚ) (n : ℕ) :
    get_deis_coeffs f hl st sigmas
      = (if st.deis_coeffs_key = some (deis_key hl sigmas)
         then (st.deis_coeffs, st, false)
         else (some (f sigmas (hl + 1)),
           ⟨some (deis_key hl sigmas), some (f sigmas (hl + 1))⟩, true)) ∧
    deis_recompute_count f hl ⟨none, none⟩ (List.replicate (n + 1) sigmas)
      = 1 := by
  constructor
  · by_cases h : st.deis_coeffs_key = some (deis_key hl sigmas) <;>
      simp [get_deis_coeffs, h]
  · have h0 : (⟨none, none⟩ : DeisState T).deis_coeffs_key
        ≠ some (deis_key hl sigmas) := fun h => Option.noConfusion h
    simp only [List.replicate_succ, deis_recompute_count, get_deis_coeffs,
      if_neg h0]
    rw [deis_recompute_count_cached f hl sigmas n ⟨some (deis_key hl sigmas),
      some (f sigmas (hl + 1))⟩ rfl]
    simp

/-- C9 witness: the cache behaviour on a concrete schedule, counting exactly
one recomputation across four repeated calls. -/
theorem get_deis_coeffs_spec_witness :
    get_deis_coeffs (fun (l : List ℚ) (_ : ℤ) => l.length) 1 ⟨none, none⟩
        [2, 1]
      = (if (⟨none, none⟩ : DeisState ℕ).deis_coeffs_key
            = some (deis_key 1 [2, 1])
         then ((⟨none, none⟩ : DeisState ℕ).deis_coeffs, ⟨none, none⟩, false)
         else (some 2, ⟨some (deis_key 1 [2, 1]), some 2⟩, true)) ∧
    deis_recompute_count (fun (l : List ℚ) (_ : ℤ) => l.length) 1
      ⟨none, none⟩ (List.replicate (3 + 1) [2, 1]) = 1 := by
  exact get_deis_coeffs_spec (fun l _ => l.length) 1 ⟨none, none⟩ [2, 1] 3

end OCS
